import Mathlib

/-!
Verification of the proj4sedona differential benchmark harness
(`benchmark/conftest.py`, `benchmark/template_loader.py`,
`benchmark/tests/test_accuracy.py`, `benchmark/tests/test_performance.py`)
against its natural-language specification.

Modelling conventions:
* Python strings are modelled as `List Char`; Python's `str.replace`,
  `str.split`, `str.strip`, `in` (substring test) are embedded below.
* IEEE-754 doubles are modelled as exact rationals (`ℚ`); the claims under
  study concern which formulas the code computes, not rounding behaviour.
* Code that can raise (`assert`, `float(...)`, `raise RuntimeError`) is
  embedded in `Except`, with `.error` marking a raised exception.
* Subprocess invocations are external collaborators: a finished subprocess
  is a `ProcResult` input; a not-yet-run subprocess is a `Unit → ProcResult`
  thunk, so "the run step is never attempted" is expressed as the result
  being independent of the thunk.
-/

namespace ProjBench

/-! ### Python string primitives -/

/-- Characters removed by Python's `str.strip()` (whitespace). -/
def isPySpace (c : Char) : Bool :=
  c = ' ' || c = '\t' || c = '\n' || c = '\r' || c = '\x0b' || c = '\x0c'

/-- Python `str.strip()`: drop whitespace from both ends. -/
def pyStrip (s : List Char) : List Char :=
  ((s.dropWhile isPySpace).reverse.dropWhile isPySpace).reverse

/-- Fuel-indexed worker for Python `str.replace`: scan left to right, replace
each non-overlapping occurrence of `pat` by `rep`.  The fuel is an upper bound
on the remaining length, so `pyReplace` below always supplies enough. -/
def replaceFuel (pat rep : List Char) : Nat → List Char → List Char
  | _, [] => []
  | 0, s => s
  | fuel + 1, c :: rest =>
    if pat ≠ [] ∧ pat.isPrefixOf (c :: rest) then
      rep ++ replaceFuel pat rep fuel ((c :: rest).drop pat.length)
    else
      c :: replaceFuel pat rep fuel rest

/-- Python `s.replace(pat, rep)` (for the non-empty patterns used by the
benchmark code). -/
def pyReplace (pat rep s : List Char) : List Char :=
  replaceFuel pat rep s.length s

/-- Python `s.split(sep)` for a one-character separator. -/
def splitOnChar (sep : Char) : List Char → List (List Char)
  | [] => [[]]
  | c :: rest =>
    match splitOnChar sep rest with
    | [] => [[c]]
    | piece :: pieces =>
      if c = sep then [] :: piece :: pieces
      else (c :: piece) :: pieces

/-- Numeric value of a digit string (most significant digit first). -/
def digitsVal (ds : List Char) : Nat :=
  ds.foldl (fun acc c => 10 * acc + (c.toNat - 48)) 0

/-- Model of Python `float(s)` on the decimal literals produced by the
benchmark output (`%f`-style formatting): optional surrounding whitespace,
optional sign, digits with an optional fractional part.  Returns `none`
exactly when Python's `float` would raise `ValueError` on such tokens
(e.g. `float("N/A")`). The value is kept exact as a rational. -/
def pyFloat (s : List Char) : Option ℚ :=
  let t := pyStrip s
  let (sgn, t1) : ℚ × List Char :=
    match t with
    | '+' :: r => (1, r)
    | '-' :: r => (-1, r)
    | r => (1, r)
  let intPart := t1.takeWhile Char.isDigit
  let rest := t1.drop intPart.length
  match rest with
  | [] =>
    if intPart = [] then none
    else some (sgn * (digitsVal intPart : ℚ))
  | '.' :: frac =>
    if frac.all Char.isDigit ∧ (intPart ≠ [] ∨ frac ≠ []) then
      some (sgn * ((digitsVal intPart : ℚ) + (digitsVal frac : ℚ) / (10 : ℚ) ^ frac.length))
    else none
  | _ => none

/-! ### `conftest.py`: iteration counts (`warmup_iterations`) -/

/-- Embeds `conftest.py` `warmup_iterations` (lines 325-333):
`warmup = max(1, min(100, benchmark_iterations // 10))`, then
`if warmup >= benchmark_iterations: warmup = max(1, benchmark_iterations - 1)`. -/
def warmup_iterations (benchmarkIterations : Nat) : Nat :=
  let warmup := max 1 (min 100 (benchmarkIterations / 10))
  if warmup ≥ benchmarkIterations then max 1 (benchmarkIterations - 1)
  else warmup

/-! ### `conftest.py`: batch point derivation -/

/-- Python list repetition `l * k`. -/
def listMul (l : List α) : Nat → List α
  | 0 => []
  | k + 1 => l ++ listMul l k

/-- Embeds the batch test-point derivation of
`BatchPythonRunner.run_batch_benchmark` (conftest.py lines 919-921) and
`BatchJavaRunner.run_batch_benchmark` (lines 728-730):
`test_points = scenario['test_points'] * (batch_size // len(...) + 1)` then
`test_points = test_points[:batch_size]`. -/
def batchTestPoints (basePoints : List (ℚ × ℚ)) (batchSize : Nat) : List (ℚ × ℚ) :=
  (listMul basePoints (batchSize / basePoints.length + 1)).take batchSize

theorem listMul_length (l : List α) (k : Nat) : (listMul l k).length = k * l.length := by
  induction k with
  | zero => simp [listMul]
  | succ k ih => simp [listMul, ih, Nat.succ_mul, Nat.add_comm]

theorem listMul_getElem? (l : List α) (k : Nat) (i : Nat) (hl : l ≠ [])
    (hi : i < k * l.length) : (listMul l k)[i]? = l[i % l.length]? := by
  induction k generalizing i with
  | zero => omega
  | succ k ih =>
    have hn : 0 < l.length := List.length_pos.mpr hl
    rw [listMul]
    by_cases h : i < l.length
    · rw [List.getElem?_append, if_pos h, Nat.mod_eq_of_lt h]
    · push_neg at h
      rw [List.getElem?_append, if_neg (by omega),
        ih (i - l.length) (by rw [Nat.succ_mul] at hi; omega), Nat.mod_eq_sub_mod h]

/-- C9: for every batch size `B` and non-empty base point list of length `n`,
the derived batch test-point list (conftest.py `BatchPythonRunner` lines
919-921 / `BatchJavaRunner` lines 728-730) has exactly `B` entries and entry
`i` equals base point `i % n`. -/
theorem batch_points_cyclic (basePoints : List (ℚ × ℚ)) (batchSize : Nat)
    (hne : basePoints ≠ []) :
    (batchTestPoints basePoints batchSize).length = batchSize ∧
    ∀ i < batchSize,
      (batchTestPoints basePoints batchSize)[i]? = basePoints[i % basePoints.length]? := by
  have hn : 0 < basePoints.length := List.length_pos.mpr hne
  have key : batchSize <
      (batchSize / basePoints.length + 1) * basePoints.length := by
    calc batchSize
        = basePoints.length * (batchSize / basePoints.length) +
            batchSize % basePoints.length := (Nat.div_add_mod _ _).symm
      _ < basePoints.length * (batchSize / basePoints.length) + basePoints.length :=
          Nat.add_lt_add_left (Nat.mod_lt _ hn) _
      _ = (batchSize / basePoints.length + 1) * basePoints.length := by ring
  have hlen : batchSize ≤ (listMul basePoints (batchSize / basePoints.length + 1)).length := by
    rw [listMul_length]
    exact Nat.le_of_lt key
  constructor
  · rw [batchTestPoints, List.length_take]
    exact Nat.min_eq_left hlen
  · intro i hi
    rw [batchTestPoints, List.getElem?_take, if_pos hi,
      listMul_getElem? basePoints _ i hne
        (by rw [← listMul_length basePoints]; exact lt_of_lt_of_le hi hlen)]

/-- The four base points of the repository's smallest batch scenario shape
(`test_edge_case` style input used to witness the cyclic fill). -/
def fourBasePoints : List (ℚ × ℚ) :=
  [(-71, 41), (-74, 40.7), (-87.6, 41.9), (-122.4, 37.8)]

/-- Witness for C9: at `batch_size = 1000` with 4 base points the derived
list has 1000 entries and entry 500 equals base point `500 % 4 = 0`. -/
theorem batch_points_cyclic_witness :
    (batchTestPoints fourBasePoints 1000).length = 1000 ∧
    (batchTestPoints fourBasePoints 1000)[500]? = fourBasePoints[0]? := by
  have h := batch_points_cyclic fourBasePoints 1000 (by decide)
  refine ⟨h.1, ?_⟩
  have h500 := h.2 500 (by decide)
  simpa using h500

/-- C4 (code bug): `warmup_iterations` at `benchmark_iterations = 1` returns
1, so the scenario invariant `warmup < iterations` fails at the admissible
configuration `iterations = 1`, contradicting the function's own comment
"Ensure warmup is always less than benchmark_iterations". -/
theorem warmup_iterations_bug_at_one :
    warmup_iterations 1 = 1 ∧ ¬ warmup_iterations 1 < 1 := by
  constructor
  · rfl
  · decide

/-! ### `conftest.py`: CRS format resolution -/

/-- Embeds the fixed EPSG → WKT2/PROJJSON key table `epsg_mapping` of
`map_scenario_to_crs_format` (conftest.py lines 366-373). -/
def epsg_mapping : List (String × String) :=
  [("EPSG:4326", "WGS84"),
   ("EPSG:3857", "WebMercator"),
   ("EPSG:32619", "UTM_19N"),
   ("EPSG:32145", "NAD83_Vermont"),
   ("EPSG:4269", "NAD83")]

/-- Python `dict.get(k, default)` over an association list. -/
def dictGetD (d : List (String × String)) (k dflt : String) : String :=
  match d.find? (fun kv => kv.1 = k) with
  | some kv => kv.2
  | none => dflt

/-- A benchmark scenario as consumed by the CRS resolution helpers. -/
structure Scenario where
  name : String
  epsg_from : String
  epsg_to : String
  test_points : List (ℚ × ℚ)

/-- The `wkt2_from`/`wkt2_to` (equally `projjson_from`/`projjson_to`) keys
assigned by `map_scenario_to_crs_format` (conftest.py lines 359-382):
`mapped['wkt2_from'] = epsg_mapping.get(scenario['epsg_from'], 'WGS84')` and
`mapped['wkt2_to'] = epsg_mapping.get(scenario['epsg_to'], 'WebMercator')`. -/
def mappedCrsKeys (s : Scenario) : String × String :=
  (dictGetD epsg_mapping s.epsg_from "WGS84",
   dictGetD epsg_mapping s.epsg_to "WebMercator")

/-- C3 counterexample: a scenario whose target EPSG identifier is absent from
the lookup table resolves to the `WebMercator` definition, not to the WGS84
default the claim states. -/
theorem crs_fallback_counterexample :
    (epsg_mapping.find? (fun kv => kv.1 = "EPSG:9999")) = none ∧
    (mappedCrsKeys ⟨"X", "EPSG:9999", "EPSG:9999", []⟩).2 = "WebMercator" ∧
    (mappedCrsKeys ⟨"X", "EPSG:9999", "EPSG:9999", []⟩).2 ≠ "WGS84" := by
  refine ⟨rfl, rfl, ?_⟩
  decide

/-- C3 amended: identifiers present in the table map through it for both the
source and the target; identifiers absent from the table fall back to WGS84
on the source side but to WebMercator on the target side. -/
theorem crs_lookup_with_asymmetric_default (s : Scenario) :
    (∀ v, epsg_mapping.find? (fun kv => kv.1 = s.epsg_from) = some v →
      (mappedCrsKeys s).1 = v.2) ∧
    (∀ v, epsg_mapping.find? (fun kv => kv.1 = s.epsg_to) = some v →
      (mappedCrsKeys s).2 = v.2) ∧
    (epsg_mapping.find? (fun kv => kv.1 = s.epsg_from) = none →
      (mappedCrsKeys s).1 = "WGS84") ∧
    (epsg_mapping.find? (fun kv => kv.1 = s.epsg_to) = none →
      (mappedCrsKeys s).2 = "WebMercator") := by
  refine ⟨?_, ?_, ?_, ?_⟩
  · intro v heq
    simp [mappedCrsKeys, dictGetD, heq]
  · intro v heq
    simp [mappedCrsKeys, dictGetD, heq]
  · intro h
    simp [mappedCrsKeys, dictGetD, h]
  · intro h
    simp [mappedCrsKeys, dictGetD, h]

/-- Witness for C3's amended theorem at a concrete scenario: a known source
code maps through the table and an unknown target code falls back. -/
theorem crs_lookup_with_asymmetric_default_witness :
    (mappedCrsKeys ⟨"W", "EPSG:4326", "EPSG:9999", []⟩).1 = "WGS84" ∧
    (mappedCrsKeys ⟨"W", "EPSG:4326", "EPSG:9999", []⟩).2 = "WebMercator" := by
  have h := crs_lookup_with_asymmetric_default ⟨"W", "EPSG:4326", "EPSG:9999", []⟩
  exact ⟨h.1 ("EPSG:4326", "WGS84") (by decide), h.2.2.2 (by decide)⟩

/-! ### `conftest.py`: execution orchestrators -/

/-- Outcome of a finished subprocess (`subprocess.run`): exit code plus
captured standard output and standard error. -/
structure ProcResult where
  returncode : Int
  stdout : String
  stderr : String

/-- The dictionary returned by the runners:
`{"output": ..., "error": ..., "returncode": ...}`. -/
structure ExecResult where
  output : String
  error : String
  returncode : Int
deriving DecidableEq

/-- Embeds the build-and-run core of `JavaRunner.run_benchmark`
(conftest.py lines 527-548): if the compile subprocess exits non-zero it
raises `RuntimeError("Java compilation failed: ...")` without running; if the
run subprocess exits non-zero it raises `RuntimeError("Java execution
failed: ...")`; otherwise it returns the run's output/stderr/exit code.
The run subprocess is a thunk so that "never attempted" is expressible. -/
def runBenchmark (compileRes : ProcResult) (runProc : Unit → ProcResult) :
    Except String ExecResult :=
  if compileRes.returncode ≠ 0 then
    Except.error ("Java compilation failed: " ++ compileRes.stderr)
  else
    let r := runProc ()
    if r.returncode ≠ 0 then
      Except.error ("Java execution failed: " ++ r.stderr)
    else
      Except.ok ⟨r.stdout, r.stderr, r.returncode⟩

/-- Embeds the build-and-run core of `BatchJavaRunner.run_batch_benchmark`
(conftest.py lines 864-890): a non-zero compile exit returns a synthetic
result `{"output": "", "error": "Compilation failed: <stderr>", "returncode":
<compile exit code>}` without running; otherwise the run result is returned
as-is (its exit code is not checked here). -/
def runBatchBenchmark (compileRes : ProcResult) (runProc : Unit → ProcResult) :
    Except String ExecResult :=
  if compileRes.returncode ≠ 0 then
    Except.ok ⟨"", "Compilation failed: " ++ compileRes.stderr, compileRes.returncode⟩
  else
    let r := runProc ()
    Except.ok ⟨r.stdout, r.stderr, r.returncode⟩

/-- C2 counterexample: for `JavaRunner.run_benchmark` a failing build does
not produce a synthetic execution result — the operation raises
(`RuntimeError`), falsifying the claim for this build-and-run operation. -/
theorem build_failure_raises_counterexample :
    runBenchmark ⟨2, "", "javac: error"⟩ (fun _ => ⟨0, "ok", ""⟩) =
      Except.error ("Java compilation failed: javac: error") := by
  rfl

/-- C2 amended: on a non-zero build exit, neither runner attempts the run
step (both results are independent of the run thunk); the batch runner
`BatchJavaRunner.run_batch_benchmark` returns a synthetic result whose exit
code is the build's and whose error field is the build's stderr prefixed
with "Compilation failed: ", while the non-batch `JavaRunner.run_benchmark`
raises `RuntimeError` instead of returning. -/
theorem build_failure_short_circuit (compileRes : ProcResult)
    (runA runB : Unit → ProcResult) (h : compileRes.returncode ≠ 0) :
    runBatchBenchmark compileRes runA =
      Except.ok ⟨"", "Compilation failed: " ++ compileRes.stderr, compileRes.returncode⟩ ∧
    runBatchBenchmark compileRes runA = runBatchBenchmark compileRes runB ∧
    runBenchmark compileRes runA =
      Except.error ("Java compilation failed: " ++ compileRes.stderr) ∧
    runBenchmark compileRes runA = runBenchmark compileRes runB := by
  refine ⟨?_, ?_, ?_, ?_⟩ <;> simp [runBatchBenchmark, runBenchmark, h]

/-- Witness for C2's amended theorem at a concrete failing build. -/
theorem build_failure_short_circuit_witness :
    runBatchBenchmark ⟨1, "", "boom"⟩ (fun _ => ⟨0, "a", "b"⟩) =
      Except.ok ⟨"", "Compilation failed: boom", 1⟩ ∧
    runBenchmark ⟨1, "", "boom"⟩ (fun _ => ⟨0, "a", "b"⟩) =
      Except.error ("Java compilation failed: boom") := by
  have h := build_failure_short_circuit ⟨1, "", "boom"⟩
    (fun _ => ⟨0, "a", "b"⟩) (fun _ => ⟨0, "a", "b"⟩) (by decide)
  exact ⟨h.1, h.2.2.1⟩

/-! ### `tests/test_accuracy.py`: accuracy comparison -/

/-- One parsed accuracy line: `{"input": (x, y), "output": (x, y)}`. -/
structure AccPoint where
  input : ℚ × ℚ
  output : ℚ × ℚ
deriving DecidableEq

/-- Per-point deviation computed by `_compare_accuracy` (test_accuracy.py
lines 247-254): `x_diff = abs(java_x - python_x)`,
`y_diff = abs(java_y - python_y)`, `point_diff = max(x_diff, y_diff)`. -/
def devOf (pq : AccPoint × AccPoint) : ℚ :=
  max |pq.1.output.1 - pq.2.output.1| |pq.1.output.2 - pq.2.output.2|

/-- The comparison loop of `_compare_accuracy` (test_accuracy.py lines
242-258), accumulating `(max_diff, total_diff, comparisons)` over
`zip(java_points, python_points)` starting from `(0.0, 0.0, 0)`. -/
def accFold (pairs : List (AccPoint × AccPoint)) : ℚ × ℚ × Nat :=
  pairs.foldl (fun acc pq => (max acc.1 (devOf pq), acc.2.1 + devOf pq, acc.2.2 + 1)) (0, 0, 0)

/-- The loop's `max_diff`. -/
def accMaxDiff (javaPts pythonPts : List AccPoint) : ℚ :=
  (accFold (javaPts.zip pythonPts)).1

/-- The loop's `total_diff`. -/
def accTotalDiff (javaPts pythonPts : List AccPoint) : ℚ :=
  (accFold (javaPts.zip pythonPts)).2.1

/-- The loop's `comparisons` counter. -/
def accComparisons (javaPts pythonPts : List AccPoint) : Nat :=
  (accFold (javaPts.zip pythonPts)).2.2

/-- Embeds `avg_diff = total_diff / comparisons if comparisons > 0 else 0`
(test_accuracy.py line 272). -/
def accAvgDiff (javaPts pythonPts : List AccPoint) : ℚ :=
  if 0 < accComparisons javaPts pythonPts then
    accTotalDiff javaPts pythonPts / (accComparisons javaPts pythonPts : ℚ)
  else 0

/-- Embeds the geographic-CRS heuristic of `_compare_accuracy`
(test_accuracy.py line 283): `scenario.get('name', '').startswith('WGS84 to
WGS84') or 'longlat' in scenario.get('name', '').lower()`. -/
def isGeographicName (name : String) : Bool :=
  List.isPrefixOf ("WGS84 to WGS84").toList name.toList ||
  decide (("longlat").toList <:+: name.toList.map Char.toLower)

/-- Embeds `tolerance = 1e-6 if is_geographic else 5e-6`
(test_accuracy.py line 284). -/
def accTolerance (name : String) : ℚ :=
  if isGeographicName name then 1 / 1000000 else 5 / 1000000

/-- Embeds `avg_tolerance = tolerance / 10 if is_geographic else tolerance / 2`
(test_accuracy.py line 303). -/
def accAvgTolerance (name : String) : ℚ :=
  if isGeographicName name then accTolerance name / 10 else accTolerance name / 2

/-- The successful outcome of `_compare_accuracy`: the aggregate values the
function computes and checks before returning normally. -/
structure CompareSummary where
  maxDiff : ℚ
  avgDiff : ℚ
  tolerance : ℚ
  avgTolerance : ℚ
deriving DecidableEq

/-- Embeds `_compare_accuracy` (test_accuracy.py lines 214-309).  The two
`assert len(java) == len(python)` statements (lines 234-239, both reachable
paths) are merged into the single leading count check; the final
`assert max_diff < tolerance` and `assert avg_diff < avg_tolerance` (lines
301-304) are the two remaining error exits.  `.error` marks a raised
`AssertionError`. -/
def compare_accuracy (javaPts pythonPts : List AccPoint) (name : String) :
    Except String CompareSummary :=
  if javaPts.length ≠ pythonPts.length then
    Except.error "Different number of points"
  else
    let maxDiff := accMaxDiff javaPts pythonPts
    let avgDiff := accAvgDiff javaPts pythonPts
    let tol := accTolerance name
    let avgTol := accAvgTolerance name
    if maxDiff < tol then
      if avgDiff < avgTol then Except.ok ⟨maxDiff, avgDiff, tol, avgTol⟩
      else Except.error "Average difference too large"
    else Except.error "Maximum difference too large"

/-- Embeds the edge-case comparison of
`TestEdgeCaseAccuracy.test_edge_case_coordinates_all_formats`
(test_accuracy.py lines 441-459): on a count mismatch both lists are cut to
`min_points = min(len(java), len(python))` before zipping; `max_diff` is the
running maximum of per-point deviations starting at `0.0`. -/
def edgeCaseMaxDiff (javaPts pythonPts : List AccPoint) : ℚ :=
  let m := min javaPts.length pythonPts.length
  let pairs :=
    if javaPts.length ≠ pythonPts.length then (javaPts.take m).zip (pythonPts.take m)
    else javaPts.zip pythonPts
  pairs.foldl (fun acc pq => max acc (devOf pq)) 0

/-- Embeds the edge-case tolerance check `tolerance = 1e-5;
assert max_diff < tolerance` (test_accuracy.py lines 461-462). -/
def edgeCasePass (javaPts pythonPts : List AccPoint) : Bool :=
  decide (edgeCaseMaxDiff javaPts pythonPts < 1 / 100000)

theorem zip_take_min (j p : List AccPoint) :
    (j.take (min j.length p.length)).zip (p.take (min j.length p.length)) = j.zip p := by
  induction j generalizing p with
  | nil => simp
  | cons a j ih =>
    cases p with
    | nil => simp
    | cons b p =>
      simp only [List.length_cons, Nat.succ_min_succ, List.take_succ_cons, List.zip_cons_cons,
        ih]

theorem accFold_eq (pairs : List (AccPoint × AccPoint)) (m s : ℚ) (c : Nat) :
    pairs.foldl (fun acc pq => (max acc.1 (devOf pq), acc.2.1 + devOf pq, acc.2.2 + 1)) (m, s, c) =
      ((pairs.map devOf).foldl max m, s + (pairs.map devOf).sum, c + pairs.length) := by
  induction pairs generalizing m s c with
  | nil => simp
  | cons pq pairs ih =>
    simp only [List.foldl_cons, List.map_cons, List.sum_cons, List.length_cons, ih,
      Prod.mk.injEq]
    refine ⟨trivial, by ring, by omega⟩

theorem foldl_max_le (l : List ℚ) (a : ℚ) :
    a ≤ l.foldl max a ∧ ∀ x ∈ l, x ≤ l.foldl max a := by
  induction l generalizing a with
  | nil => simp
  | cons h t ih =>
    have step := ih (max a h)
    refine ⟨le_trans (le_max_left a h) step.1, ?_⟩
    intro x hx
    rcases List.mem_cons.mp hx with rfl | hx
    · exact le_trans (le_max_right a x) step.1
    · exact step.2 x hx

theorem foldl_max_mem (l : List ℚ) (a : ℚ) :
    l.foldl max a ∈ l ∨ l.foldl max a = a := by
  induction l generalizing a with
  | nil => right; rfl
  | cons h t ih =>
    rcases ih (max a h) with hm | he
    · exact Or.inl (List.mem_cons_of_mem _ hm)
    · rw [List.foldl_cons, he]
      rcases max_choice a h with h1 | h1
      · exact Or.inr h1
      · rw [h1]
        exact Or.inl (List.mem_cons_self _ _)

theorem accFold_components (j p : List AccPoint) :
    accMaxDiff j p = ((j.zip p).map devOf).foldl max 0 ∧
    accTotalDiff j p = ((j.zip p).map devOf).sum ∧
    accComparisons j p = (j.zip p).length := by
  have h := accFold_eq (j.zip p) 0 0 0
  refine ⟨?_, ?_, ?_⟩
  · rw [accMaxDiff, accFold, h]
  · rw [accTotalDiff, accFold, h]
    simp
  · rw [accComparisons, accFold, h]
    simp

/-- C5: the comparison loop of `_compare_accuracy` computes each per-point
deviation as `max(|xA-xB|, |yA-yB|)` over the output coordinates (Chebyshev
metric), its aggregate `max_diff` is the maximum of these deviations (their
largest member, or 0 when there are none), and its aggregate `avg_diff` is
their arithmetic mean. -/
theorem comparator_chebyshev_aggregates (j p : List AccPoint)
    (_hlen : j.length = p.length) :
    (∀ pq ∈ j.zip p, devOf pq =
      max |pq.1.output.1 - pq.2.output.1| |pq.1.output.2 - pq.2.output.2|) ∧
    (∀ d ∈ (j.zip p).map devOf, d ≤ accMaxDiff j p) ∧
    ((j.zip p).map devOf = [] → accMaxDiff j p = 0) ∧
    ((j.zip p).map devOf ≠ [] → accMaxDiff j p ∈ (j.zip p).map devOf) ∧
    accAvgDiff j p =
      ((j.zip p).map devOf).sum / (((j.zip p).map devOf).length : ℚ) := by
  obtain ⟨hmax, htot, hcnt⟩ := accFold_components j p
  refine ⟨fun pq _ => rfl, ?_, ?_, ?_, ?_⟩
  · intro d hd
    rw [hmax]
    exact (foldl_max_le _ 0).2 d hd
  · intro he
    rw [hmax, he]
    rfl
  · intro hne
    rw [hmax]
    rcases foldl_max_mem ((j.zip p).map devOf) 0 with hm | h0
    · exact hm
    · rcases List.exists_mem_of_ne_nil _ hne with ⟨d, hd⟩
      have hd0 : 0 ≤ d := by
        rcases List.mem_map.mp hd with ⟨pq, _, rfl⟩
        exact le_max_of_le_left (abs_nonneg _)
      have hle := (foldl_max_le ((j.zip p).map devOf) 0).2 d hd
      have hfd : ((j.zip p).map devOf).foldl max 0 ≤ d := by
        rw [h0]
        exact hd0
      have heq : ((j.zip p).map devOf).foldl max 0 = d := le_antisymm hfd hle
      rw [heq]
      exact hd
  · rw [accAvgDiff, htot, hcnt]
    by_cases hc : 0 < (j.zip p).length
    · rw [if_pos hc, List.length_map]
    · rw [if_neg hc]
      have h0 : (j.zip p).length = 0 := by omega
      rw [List.length_eq_zero] at h0
      simp [h0]

/-- Witness for C5 at a concrete pair of one-point records with outputs
differing by 3 in x and 4 in y: the deviation list is `[4]`, the aggregate
max is a member of it, and the mean equals its sum over its length. -/
theorem comparator_chebyshev_aggregates_witness :
    accMaxDiff [⟨(0, 0), (0, 0)⟩] [⟨(0, 0), (3, 4)⟩] ∈
      (([⟨(0, 0), (0, 0)⟩] : List AccPoint).zip [⟨(0, 0), (3, 4)⟩]).map devOf ∧
    accAvgDiff [⟨(0, 0), (0, 0)⟩] [⟨(0, 0), (3, 4)⟩] =
      ((([⟨(0, 0), (0, 0)⟩] : List AccPoint).zip [⟨(0, 0), (3, 4)⟩]).map devOf).sum /
        (((([⟨(0, 0), (0, 0)⟩] : List AccPoint).zip [⟨(0, 0), (3, 4)⟩]).map devOf).length : ℚ) := by
  have h := comparator_chebyshev_aggregates [⟨(0, 0), (0, 0)⟩] [⟨(0, 0), (3, 4)⟩] rfl
  exact ⟨h.2.2.2.1 (by simp), h.2.2.2.2⟩

/-- Embeds the "WGS84" and "PROJCRS"/"GEOGCRS" head keyword of each WKT2
definition in the conftest.py `wkt2_definitions` fixture (lines 126-247):
the geographic CRS texts (`WGS84`, `NAD83`) begin with `GEOGCRS[`, the
projected ones (`WebMercator`, `UTM_19N`, `NAD83_Vermont`) with `PROJCRS[`. -/
def wkt2DefinitionKind (key : String) : Option String :=
  if key = "WGS84" then some "GEOGCRS"
  else if key = "WebMercator" then some "PROJCRS"
  else if key = "UTM_19N" then some "PROJCRS"
  else if key = "NAD83_Vermont" then some "PROJCRS"
  else if key = "NAD83" then some "GEOGCRS"
  else none

/-- Embeds the `"NAD83 to WGS84"` scenario from the conftest.py
`test_scenarios` fixture (lines 100-110). -/
def nad83ToWgs84Scenario : Scenario :=
  ⟨"NAD83 to WGS84", "EPSG:4269", "EPSG:4326",
   [(-71, 41), (-74, 40.7), (-87.6, 41.9), (-122.4, 37.8)]⟩

/-- C6 counterexample: the repository scenario "NAD83 to WGS84" has a
geographic target CRS (EPSG:4326, whose WKT2 definition in the repository is
a `GEOGCRS`), yet `_compare_accuracy` selects the projected tolerance 5e-6
for it, because the tolerance is chosen by a scenario-name heuristic and not
by the target CRS type. -/
theorem tolerance_by_name_counterexample :
    wkt2DefinitionKind (mappedCrsKeys nad83ToWgs84Scenario).2 = some "GEOGCRS" ∧
    accTolerance nad83ToWgs84Scenario.name = 5 / 1000000 ∧
    accTolerance nad83ToWgs84Scenario.name ≠ 1 / 1000000 := by
  have hg : isGeographicName nad83ToWgs84Scenario.name = false := by decide
  refine ⟨rfl, ?_, ?_⟩
  · rw [accTolerance, hg]
    simp
  · rw [accTolerance, hg]
    norm_num

/-- C6 amended: tolerances are selected by the scenario-name heuristic
`is_geographic` (name starts with "WGS84 to WGS84" or contains "longlat"),
not by the target CRS type: max tolerance 1e-6 when classified geographic
and 5e-6 otherwise, mean tolerance = max tolerance / 10 (geographic) or / 2
(otherwise); for equal-length records the comparison succeeds (no
`AssertionError`) exactly when both aggregate checks are strictly within
tolerance; the deliberately adversarial edge-case comparison passes exactly
when its max deviation is strictly below 1e-5. -/
theorem tolerance_policy_by_name (name : String) (j p : List AccPoint)
    (hlen : j.length = p.length) :
    (isGeographicName name = true →
      accTolerance name = 1 / 1000000 ∧
      accAvgTolerance name = accTolerance name / 10) ∧
    (isGeographicName name = false →
      accTolerance name = 5 / 1000000 ∧
      accAvgTolerance name = accTolerance name / 2) ∧
    ((compare_accuracy j p name).isOk = true ↔
      (accMaxDiff j p < accTolerance name ∧ accAvgDiff j p < accAvgTolerance name)) ∧
    (∀ e f : List AccPoint, edgeCasePass e f = true ↔ edgeCaseMaxDiff e f < 1 / 100000) := by
  refine ⟨?_, ?_, ?_, ?_⟩
  · intro hg
    simp [accTolerance, accAvgTolerance, hg]
  · intro hg
    simp [accTolerance, accAvgTolerance, hg]
  · rw [compare_accuracy, if_neg (by omega)]
    by_cases h1 : accMaxDiff j p < accTolerance name
    · by_cases h2 : accAvgDiff j p < accAvgTolerance name
      · simp [h1, h2, Except.isOk, Except.toBool]
      · simp [h1, h2, Except.isOk, Except.toBool]
    · simp [h1, Except.isOk, Except.toBool]
  · intro e f
    rw [edgeCasePass]
    exact decide_eq_true_iff

/-- Witness for C6's amended theorem at a concrete geographic-classified
name and a concrete passing pair of equal-length records. -/
theorem tolerance_policy_by_name_witness :
    accTolerance "WGS84 to WGS84 roundtrip" = 1 / 1000000 ∧
    accAvgTolerance "WGS84 to WGS84 roundtrip" = accTolerance "WGS84 to WGS84 roundtrip" / 10 ∧
    ((compare_accuracy [] [] "WGS84 to WGS84 roundtrip").isOk = true ↔
      (accMaxDiff ([] : List AccPoint) [] < accTolerance "WGS84 to WGS84 roundtrip" ∧
       accAvgDiff ([] : List AccPoint) [] < accAvgTolerance "WGS84 to WGS84 roundtrip")) := by
  have h := tolerance_policy_by_name "WGS84 to WGS84 roundtrip" [] [] rfl
  have hg := h.1 (by decide)
  exact ⟨hg.1, hg.2, h.2.2.1⟩

/-- Three parsed accuracy points (outputs along the diagonal). -/
def threeAccPoints : List AccPoint :=
  [⟨(0, 0), (1, 1)⟩, ⟨(0, 0), (2, 2)⟩, ⟨(0, 0), (3, 3)⟩]

/-- Five parsed accuracy points extending `threeAccPoints`. -/
def fiveAccPoints : List AccPoint :=
  [⟨(0, 0), (1, 1)⟩, ⟨(0, 0), (2, 2)⟩, ⟨(0, 0), (3, 3)⟩, ⟨(0, 0), (4, 4)⟩, ⟨(0, 0), (5, 5)⟩]

/-- C1 counterexample: `_compare_accuracy` on records with 3 and 5 points
does not compare the overlapping prefix — it aborts with an
`AssertionError` ("Different number of points"). -/
theorem compare_accuracy_count_mismatch_counterexample :
    threeAccPoints.length = 3 ∧ fiveAccPoints.length = 5 ∧
    compare_accuracy threeAccPoints fiveAccPoints "Edge" =
      Except.error "Different number of points" := by
  refine ⟨rfl, rfl, ?_⟩
  rw [compare_accuracy, if_pos (by decide)]

/-- C1 amended: on any count mismatch `_compare_accuracy` raises
(`AssertionError`, here `.error`); the behaviour the claim describes —
comparing exactly the first `min(lenA, lenB)` pairs without raising while
the count mismatch is reported separately — is implemented by the edge-case
accuracy test (`test_edge_case_coordinates_all_formats`), whose max
deviation ranges over exactly `min(lenA, lenB)` zipped pairs and which is a
total function of the two records. -/
theorem compare_accuracy_mismatch_raises_edge_prefix_compares
    (j p : List AccPoint) (name : String) (hne : j.length ≠ p.length) :
    compare_accuracy j p name = Except.error "Different number of points" ∧
    edgeCaseMaxDiff j p = ((j.zip p).map devOf).foldl max 0 ∧
    (j.zip p).length = min j.length p.length := by
  refine ⟨?_, ?_, ?_⟩
  · rw [compare_accuracy, if_pos hne]
  · rw [edgeCaseMaxDiff]
    simp only [if_pos hne, zip_take_min]
    rw [← List.foldl_map]
  · exact List.length_zip j p

/-- Witness for C1's amended theorem at the concrete 3-point / 5-point
records. -/
theorem compare_accuracy_mismatch_raises_edge_prefix_compares_witness :
    compare_accuracy threeAccPoints fiveAccPoints "W" =
      Except.error "Different number of points" ∧
    (threeAccPoints.zip fiveAccPoints).length = min 3 5 := by
  have h := compare_accuracy_mismatch_raises_edge_prefix_compares
    threeAccPoints fiveAccPoints "W" (by decide)
  exact ⟨h.1, h.2.2⟩

/-! ### `tests/test_performance.py`: performance output parsing -/

/-- The label "Average per transformation:" matched by
`_parse_benchmark_output`. -/
def avgLabel : List Char := ("Average per transformation:").toList

/-- The label "Transformations per second:". -/
def tpsLabel : List Char := ("Transformations per second:").toList

/-- The label "Success rate:". -/
def rateLabel : List Char := ("Success rate:").toList

/-- The label "Total time:". -/
def totalLabel : List Char := ("Total time:").toList

/-- The accuracy/performance section marker "Performance Test:". -/
def perfMarker : List Char := ("Performance Test:").toList

/-- Python `line.split(":")[1]`.  Every reachable call site guards the line
with a label that itself contains a colon, so index 1 always exists; the
default only pads the unreachable case. -/
def colonSeg1 (line : List Char) : List Char :=
  ((splitOnChar ':' line).drop 1).headD []

/-- The metrics dictionary built by `_parse_benchmark_output`
(test_performance.py lines 157-172); a `none` field is an absent key. -/
structure PerfMetrics where
  avg_time_ms : Option ℚ
  tps : Option ℚ
  success_rate : Option ℚ
  total_time_ms : Option ℚ
deriving DecidableEq

/-- The empty metrics dictionary `{}`. -/
def emptyMetrics : PerfMetrics := ⟨none, none, none, none⟩

/-- The four metric keys. -/
inductive PerfField
  | avg
  | tps
  | rate
  | total
deriving DecidableEq

/-- The `elif` chain of `_parse_benchmark_output` (test_performance.py lines
162-170) in source order, paired with the token each branch feeds to
`float`: `line.split(":")[1].strip()` with `" ms"` removed for the two time
labels and `"%"` removed for the success rate. -/
def lineBranch (line : List Char) : Option (PerfField × List Char) :=
  if avgLabel <:+: line then
    some (PerfField.avg, pyReplace ((" ms").toList) [] (pyStrip (colonSeg1 line)))
  else if tpsLabel <:+: line then
    some (PerfField.tps, pyStrip (colonSeg1 line))
  else if rateLabel <:+: line then
    some (PerfField.rate, pyReplace (("%").toList) [] (pyStrip (colonSeg1 line)))
  else if totalLabel <:+: line then
    some (PerfField.total, pyReplace ((" ms").toList) [] (pyStrip (colonSeg1 line)))
  else none

/-- Store a parsed metric under its key. -/
def setField (m : PerfMetrics) : PerfField → ℚ → PerfMetrics
  | PerfField.avg, v => { m with avg_time_ms := some v }
  | PerfField.tps, v => { m with tps := some v }
  | PerfField.rate, v => { m with success_rate := some v }
  | PerfField.total, v => { m with total_time_ms := some v }

/-- One iteration of the parsing loop: an unlabeled line leaves the metrics
unchanged; a labeled line whose token `float` rejects raises `ValueError`
(`.error` carries the offending token). -/
def parseLine (m : PerfMetrics) (line : List Char) : Except (List Char) PerfMetrics :=
  match lineBranch line with
  | none => Except.ok m
  | some (f, tok) =>
    match pyFloat tok with
    | none => Except.error tok
    | some v => Except.ok (setField m f v)

/-- Embeds `_parse_benchmark_output` (test_performance.py lines 157-172):
split the output on newlines and fold the line parser over the lines,
starting from the empty dictionary; an uncaught `ValueError` aborts the
whole parse. -/
def parse_benchmark_output (output : List Char) : Except (List Char) PerfMetrics :=
  (splitOnChar '\n' output).foldlM parseLine emptyMetrics

theorem splitOnChar_ne_nil (sep : Char) (s : List Char) : splitOnChar sep s ≠ [] := by
  cases s with
  | nil => simp [splitOnChar]
  | cons c rest =>
    rw [splitOnChar]
    cases splitOnChar sep rest with
    | nil => simp
    | cons piece pieces =>
      by_cases h : c = sep <;> simp [h]

theorem infix_of_cons {l t : List Char} (c : Char) (h : l <:+: t) : l <:+: c :: t := by
  obtain ⟨u, v, huv⟩ := h
  exact ⟨c :: u, v, by rw [← huv]; rfl⟩

theorem splitOnChar_head_prefix (sep : Char) (s : List Char) :
    ∀ h t, splitOnChar sep s = h :: t → (h <+: s ∧ ∀ p ∈ t, p <:+: s) := by
  induction s with
  | nil =>
    intro h t heq
    rw [splitOnChar] at heq
    cases heq
    simp
  | cons c rest ih =>
    intro h t heq
    rcases hr : splitOnChar sep rest with _ | ⟨ph, pt⟩
    · exact absurd hr (splitOnChar_ne_nil sep rest)
    · obtain ⟨hp, hinf⟩ := ih ph pt hr
      by_cases hc : c = sep
      · simp only [splitOnChar, hr, if_pos hc] at heq
        cases heq
        refine ⟨List.nil_prefix, ?_⟩
        intro p hp2
        rcases List.mem_cons.mp hp2 with rfl | hp2
        · exact infix_of_cons c hp.isInfix
        · exact infix_of_cons c (hinf p hp2)
      · simp only [splitOnChar, hr, if_neg hc] at heq
        cases heq
        refine ⟨List.cons_prefix_cons.mpr ⟨rfl, hp⟩, ?_⟩
        intro p hp2
        exact infix_of_cons c (hinf p hp2)

theorem splitOnChar_mem_infix (sep : Char) (s : List Char) :
    ∀ piece ∈ splitOnChar sep s, piece <:+: s := by
  rcases hr : splitOnChar sep s with _ | ⟨h, t⟩
  · exact absurd hr (splitOnChar_ne_nil sep s)
  · obtain ⟨hp, hinf⟩ := splitOnChar_head_prefix sep s h t hr
    intro piece hmem
    rcases List.mem_cons.mp hmem with rfl | hmem
    · exact hp.isInfix
    · exact hinf piece hmem

theorem foldlM_parseLine_unlabeled (lines : List (List Char)) (m : PerfMetrics)
    (h : ∀ line ∈ lines, lineBranch line = none) :
    lines.foldlM parseLine m = Except.ok m := by
  induction lines generalizing m with
  | nil => rfl
  | cons l ls ih =>
    have hl : lineBranch l = none := h l (List.mem_cons_self _ _)
    have hrest : ∀ line ∈ ls, lineBranch line = none :=
      fun line hline => h line (List.mem_cons_of_mem _ hline)
    rw [List.foldlM_cons, parseLine, hl]
    exact ih m hrest

/-- C8: on any output text containing neither the `Performance Test:` marker
nor any of the four recognized performance labels,
`_parse_benchmark_output` returns the empty metrics dictionary (a valid
degraded record with every field absent) and raises nothing. -/
theorem parse_benchmark_output_degraded (output : List Char)
    (_hmarker : ¬ perfMarker <:+: output)
    (hlabels : ∀ lab ∈ [avgLabel, tpsLabel, rateLabel, totalLabel], ¬ lab <:+: output) :
    parse_benchmark_output output = Except.ok emptyMetrics := by
  rw [parse_benchmark_output]
  apply foldlM_parseLine_unlabeled
  intro line hline
  have hinf : line <:+: output := splitOnChar_mem_infix '\n' output line hline
  have hnot : ∀ lab ∈ [avgLabel, tpsLabel, rateLabel, totalLabel], ¬ lab <:+: line := by
    intro lab hmem hlab
    exact hlabels lab hmem (hlab.trans hinf)
  rw [lineBranch,
    if_neg (hnot avgLabel (by simp)),
    if_neg (hnot tpsLabel (by simp [avgLabel, tpsLabel, rateLabel, totalLabel])),
    if_neg (hnot rateLabel (by simp [avgLabel, tpsLabel, rateLabel, totalLabel])),
    if_neg (hnot totalLabel (by simp [avgLabel, tpsLabel, rateLabel, totalLabel]))]

/-- Witness for C8 at a concrete output without markers or labels. -/
theorem parse_benchmark_output_degraded_witness :
    parse_benchmark_output (("=== pyproj Benchmark ===\nScenario: X").toList) =
      Except.ok emptyMetrics := by
  apply parse_benchmark_output_degraded
  · decide
  · decide

theorem parseLine_isOk_indep (m m' : PerfMetrics) (line : List Char) :
    (parseLine m line).isOk = (parseLine m' line).isOk := by
  cases hb : lineBranch line with
  | none =>
    simp only [parseLine, hb]
    rfl
  | some ft =>
    obtain ⟨f, tok⟩ := ft
    cases hf : pyFloat tok with
    | none => simp [parseLine, hb, hf]
    | some v => simp [parseLine, hb, hf, Except.isOk, Except.toBool]

theorem foldlM_parseLine_ok (lines : List (List Char)) (m : PerfMetrics)
    (h : (lines.foldlM parseLine m).isOk = true) :
    ∀ line ∈ lines, ∀ m' : PerfMetrics, (parseLine m' line).isOk = true := by
  induction lines generalizing m with
  | nil => simp
  | cons l ls ih =>
    rw [List.foldlM_cons] at h
    cases hl : parseLine m l with
    | error e =>
      rw [hl] at h
      exact Bool.noConfusion h
    | ok m1 =>
      rw [hl] at h
      intro line hline m'
      rcases List.mem_cons.mp hline with rfl | hline
      · rw [parseLine_isOk_indep m' m, hl]
        rfl
      · exact ih m1 h line hline m'

/-- C10: `_parse_benchmark_output` is not total — on the output line
`Total time: N/A ms` the `float` conversion raises `ValueError` (the parse
aborts carrying the unparseable token `N/A`); and whenever the parse does
return normally, every line carrying a recognized label had a parseable
numeric token (its line parse succeeds from any intermediate state). -/
theorem parse_benchmark_output_partial :
    parse_benchmark_output (("Total time: N/A ms").toList) =
      Except.error (("N/A").toList) ∧
    ∀ output : List Char, (parse_benchmark_output output).isOk = true →
      ∀ line ∈ splitOnChar '\n' output, ∀ m : PerfMetrics,
        (parseLine m line).isOk = true := by
  constructor
  · rfl
  · intro output h
    exact foldlM_parseLine_ok (splitOnChar '\n' output) emptyMetrics h

/-- Witness for C10's "only when" direction at a concrete parseable output:
the parse succeeds, so the theorem yields success of the labeled line's own
parse step. -/
theorem parse_benchmark_output_partial_witness :
    (parseLine emptyMetrics (("Total time: 12.50 ms").toList)).isOk = true := by
  exact parse_benchmark_output_partial.2 (("Total time: 12.50 ms").toList) (by decide)
    (("Total time: 12.50 ms").toList) (by decide) emptyMetrics

/-! ### `template_loader.py`: placeholder substitution -/

/-- The literal placeholder text `"{" + key + "}"` built by `fill_template`
(template_loader.py line 26). -/
def placeholder (key : List Char) : List Char :=
  '{' :: key ++ ['}']

/-- Keys passed as Python keyword arguments are identifiers and contain no
brace characters. -/
def braceFree (l : List Char) : Prop :=
  '{' ∉ l ∧ '}' ∉ l

instance braceFreeDecidable (l : List Char) : Decidable (braceFree l) :=
  inferInstanceAs (Decidable ('{' ∉ l ∧ '}' ∉ l))

/-- Embeds `TemplateLoader.fill_template` (template_loader.py lines 22-28):
fold `result = result.replace("{" + key + "}", str(value))` over the binding
map in order; `str(value)` is the bound value's string form.  The function
is total — no input raises. -/
def fill_template (template : List Char) (bindings : List (List Char × List Char)) :
    List Char :=
  bindings.foldl (fun result kv => pyReplace (placeholder kv.1) kv.2 result) template

theorem infix_append_left {l b : List Char} (a : List Char) (h : l <:+: b) :
    l <:+: a ++ b := by
  obtain ⟨u, w, hu⟩ := h
  exact ⟨a ++ u, w, by rw [← hu]; simp [List.append_assoc]⟩

theorem not_infix_nil {l : List Char} (hne : l ≠ []) : ¬ l <:+: ([] : List Char) := by
  intro h
  obtain ⟨u, w, hu⟩ := h
  rcases List.append_eq_nil.mp hu with ⟨h1, h2⟩
  exact hne (List.append_eq_nil.mp h1).2

theorem braceFree_close_split (X : List Char) :
    ∀ (K w t : List Char), '}' ∉ X → '}' ∉ K →
      X ++ '}' :: w = K ++ '}' :: t → X = K ∧ w = t := by
  induction X with
  | nil =>
    intro K w t _ hK heq
    cases K with
    | nil =>
      simp only [List.nil_append] at heq
      exact ⟨rfl, (List.cons.injEq _ _ _ _).mp heq |>.2⟩
    | cons k K' =>
      simp only [List.nil_append, List.cons_append] at heq
      obtain ⟨hk, -⟩ := (List.cons.injEq _ _ _ _).mp heq
      exact absurd (hk ▸ List.mem_cons_self k K') (hk ▸ hK)
  | cons x X' ih =>
    intro K w t hX hK heq
    cases K with
    | nil =>
      simp only [List.cons_append, List.nil_append] at heq
      obtain ⟨hx, -⟩ := (List.cons.injEq _ _ _ _).mp heq
      exact absurd (hx ▸ List.mem_cons_self x X') (hx ▸ hX)
    | cons k K' =>
      simp only [List.cons_append] at heq
      obtain ⟨hx, htail⟩ := (List.cons.injEq _ _ _ _).mp heq
      have hX' : '}' ∉ X' := fun hm => hX (List.mem_cons_of_mem _ hm)
      have hK' : '}' ∉ K' := fun hm => hK (List.mem_cons_of_mem _ hm)
      obtain ⟨h1, h2⟩ := ih K' w t hX' hK' htail
      exact ⟨by rw [hx, h1], h2⟩

theorem open_brace_exchange (K : List Char) :
    ∀ (u r rest : List Char), '{' ∉ K → u ++ '{' :: r = K ++ rest →
      ∃ u', u = K ++ u' ∧ u' ++ '{' :: r = rest := by
  induction K with
  | nil =>
    intro u r rest _ heq
    exact ⟨u, by simp, by simpa using heq⟩
  | cons k K' ih =>
    intro u r rest hK heq
    cases u with
    | nil =>
      simp only [List.nil_append, List.cons_append] at heq
      obtain ⟨hk, -⟩ := (List.cons.injEq _ _ _ _).mp heq
      exact absurd (hk ▸ List.mem_cons_self k K') (hk ▸ hK)
    | cons a u2 =>
      simp only [List.cons_append] at heq
      obtain ⟨ha, htail⟩ := (List.cons.injEq _ _ _ _).mp heq
      have hK' : '{' ∉ K' := fun hm => hK (List.mem_cons_of_mem _ hm)
      obtain ⟨u', h1, h2⟩ := ih u2 r rest hK' htail
      exact ⟨u', by rw [List.cons_append, ha, h1], h2⟩

theorem replaceFuel_copy_nonbrace (K v : List Char) :
    ∀ (pre rest : List Char) (fuel : Nat), (∀ ch ∈ pre, ch ≠ '{') →
      (pre ++ rest).length ≤ fuel →
      ∃ fuel', rest.length ≤ fuel' ∧
        replaceFuel (placeholder K) v fuel (pre ++ rest) =
          pre ++ replaceFuel (placeholder K) v fuel' rest := by
  intro pre
  induction pre with
  | nil =>
    intro rest fuel _ hfuel
    exact ⟨fuel, by simpa using hfuel, by simp⟩
  | cons p pre' ih =>
    intro rest fuel hpre hfuel
    cases fuel with
    | zero => simp at hfuel
    | succ f =>
      have hp : p ≠ '{' := hpre p (List.mem_cons_self _ _)
      have hcond : ¬ (placeholder K ≠ [] ∧
          (placeholder K).isPrefixOf (p :: (pre' ++ rest)) = true) := by
        rintro ⟨-, hpref⟩
        have := List.isPrefixOf_iff_prefix.mp hpref
        rw [placeholder, List.cons_append] at this
        exact hp ((List.cons_prefix_cons.mp this).1.symm)
      rw [List.cons_append, replaceFuel, if_neg hcond]
      obtain ⟨fuel', hle, heq⟩ := ih rest f
        (fun ch hch => hpre ch (List.mem_cons_of_mem _ hch))
        (by simpa using Nat.le_of_succ_le_succ hfuel)
      exact ⟨fuel', hle, by rw [heq, List.cons_append]⟩

theorem placeholder_survives_replaceFuel (K X v : List Char)
    (hK : braceFree K) (hX : braceFree X) (hne : K ≠ X) :
    ∀ (fuel : Nat) (s : List Char), s.length ≤ fuel →
      placeholder X <:+: s →
      placeholder X <:+: replaceFuel (placeholder K) v fuel s := by
  intro fuel
  induction fuel with
  | zero =>
    intro s hlen hinf
    have hs : s = [] := List.length_eq_zero.mp (Nat.le_zero.mp hlen)
    subst hs
    exact absurd hinf (not_infix_nil (by simp [placeholder]))
  | succ f ih =>
    intro s hlen hinf
    cases s with
    | nil => exact absurd hinf (not_infix_nil (by simp [placeholder]))
    | cons c rest =>
      by_cases hm : placeholder K ≠ [] ∧ (placeholder K).isPrefixOf (c :: rest) = true
      · rw [replaceFuel, if_pos hm]
        obtain ⟨t, ht⟩ := List.isPrefixOf_iff_prefix.mp hm.2
        have hdrop : (c :: rest).drop (placeholder K).length = t := by
          rw [← ht, List.drop_left]
        have hxt : placeholder X <:+: t := by
          obtain ⟨u, w, hu⟩ := hinf
          rw [← ht] at hu
          cases u with
          | nil =>
            exfalso
            simp only [List.nil_append, placeholder, List.cons_append, List.append_assoc,
              List.singleton_append] at hu
            obtain ⟨-, htail⟩ := (List.cons.injEq _ _ _ _).mp hu
            obtain ⟨hXK, -⟩ := braceFree_close_split X K w t hX.2 hK.2 htail
            exact hne hXK.symm
          | cons a u2 =>
            simp only [placeholder, List.cons_append, List.append_assoc,
              List.singleton_append] at hu
            obtain ⟨ha, htail⟩ := (List.cons.injEq _ _ _ _).mp hu
            obtain ⟨u3, hu3, hrest⟩ :=
              open_brace_exchange K u2 (X ++ '}' :: w) ('}' :: t) hK.1 htail
            cases u3 with
            | nil =>
              exfalso
              simp only [List.nil_append] at hrest
              obtain ⟨hbrace, -⟩ := (List.cons.injEq _ _ _ _).mp hrest
              exact absurd hbrace (by decide)
            | cons b u4 =>
              simp only [List.cons_append] at hrest
              obtain ⟨hb, htail2⟩ := (List.cons.injEq _ _ _ _).mp hrest
              refine ⟨u4, w, ?_⟩
              rw [← htail2]
              simp [placeholder, List.cons_append, List.append_assoc]
        have hlt : t.length ≤ f := by
          have hlen2 : (placeholder K ++ t).length = (c :: rest).length := by rw [ht]
          simp only [List.length_append, placeholder, List.length_cons,
            List.length_append, List.length_singleton] at hlen2
          simp only [List.length_cons] at hlen
          omega
        rw [hdrop]
        exact infix_append_left v (ih t hlt hxt)
      · rw [replaceFuel, if_neg hm]
        obtain ⟨u, w, hu⟩ := hinf
        cases u with
        | cons a u2 =>
          have hrest : placeholder X <:+: rest := by
            simp only [List.cons_append] at hu
            obtain ⟨-, htail⟩ := (List.cons.injEq _ _ _ _).mp hu
            exact ⟨u2, w, htail⟩
          have hlen2 : rest.length ≤ f := by
            simp only [List.length_cons] at hlen
            omega
          exact infix_of_cons c (ih rest hlen2 hrest)
        | nil =>
          simp only [List.nil_append, placeholder, List.cons_append] at hu
          obtain ⟨hc, htail⟩ := (List.cons.injEq _ _ _ _).mp hu
          have hpre : ∀ ch ∈ X ++ ['}'], ch ≠ '{' := by
            intro ch hch
            rcases List.mem_append.mp hch with h1 | h1
            · exact fun hc2 => hX.1 (hc2 ▸ h1)
            · have : ch = '}' := by simpa using h1
              subst this
              decide
          have hwlen : ((X ++ ['}']) ++ w).length ≤ f := by
            rw [htail]
            simp only [List.length_cons] at hlen
            omega
          obtain ⟨fuel', -, heq⟩ := replaceFuel_copy_nonbrace K v (X ++ ['}']) w f hpre hwlen
          rw [← htail, heq, ← hc]
          exact ⟨[], replaceFuel (placeholder K) v fuel' w, by
            simp [placeholder, List.append_assoc]⟩

/-- C7: `fill_template` is total (never raises — it is a plain fold of
total replacements), each binding step is literal replacement of the
occurrences of `{KEY}` by the bound value's string form for exactly the keys
in the binding map, and every placeholder `{X}` present in the template
whose brace-free key `X` is bound by no binding survives verbatim in the
output. -/
theorem fill_template_placeholder_leak (template : List Char)
    (bindings : List (List Char × List Char)) (X : List Char)
    (hkeys : ∀ kv ∈ bindings, braceFree kv.1)
    (hX : braceFree X)
    (habsent : ∀ kv ∈ bindings, kv.1 ≠ X)
    (hin : placeholder X <:+: template) :
    placeholder X <:+: fill_template template bindings := by
  induction bindings generalizing template with
  | nil => exact hin
  | cons kv bs ih =>
    rw [fill_template, List.foldl_cons]
    have hstep : placeholder X <:+: pyReplace (placeholder kv.1) kv.2 template :=
      placeholder_survives_replaceFuel kv.1 X kv.2
        (hkeys kv (List.mem_cons_self _ _)) hX
        (habsent kv (List.mem_cons_self _ _))
        template.length template le_rfl hin
    exact ih (pyReplace (placeholder kv.1) kv.2 template)
      (fun kv2 h2 => hkeys kv2 (List.mem_cons_of_mem _ h2))
      (fun kv2 h2 => habsent kv2 (List.mem_cons_of_mem _ h2))
      hstep

/-- Witness for C7: filling a template containing `{TEST_POINTS}` and
`{ITERATIONS}` with a binding map that lacks `TEST_POINTS` leaves the
literal `{TEST_POINTS}` placeholder in the output. -/
theorem fill_template_placeholder_leak_witness :
    placeholder (("TEST_POINTS").toList) <:+:
      fill_template (("points = {TEST_POINTS}; n = {ITERATIONS}").toList)
        [((("ITERATIONS").toList), ("1000").toList)] := by
  exact fill_template_placeholder_leak _ _ _
    (by decide) (by decide) (by decide) (by decide)
